import Mathlib

/-!
Verification development for a PDF OCR pipeline built around an external
vision-language inference service.  The modelled pieces are:

* the streaming read loop of OllamaHandler.perform_ocr with its online
  hallucination detector (ocr_engine.py),
* the tag-based response parsing of OllamaHandler.parse_response
  (ocr_engine.py), including the exact lazy/greedy behaviour of its
  regular expression,
* the per-page two-tier escalation and the layout selection of
  PDFProcessor.process_pdf (pdf_processor.py),
* the adaptive font-size search of the text overlay (pdf_processor.py).

Machine floats are modelled as exact rationals, byte strings as character
lists.  External collaborators (the HTTP transport, PyMuPDF, reportlab's
simpleSplit word wrap) enter as explicit parameters or oracles.
-/

/-- ASCII fragment of Python's whitespace class, as used by str.strip and by
the whitespace class of the re module (the Unicode extras are outside this
model; no input below uses them). -/
def isPySpaceB (c : Char) : Bool :=
  c = ' ' || c = '\t' || c = '\n' || c = '\r' || c = '\x0b' || c = '\x0c'

def stripChars (l : List Char) : List Char :=
  ((l.dropWhile isPySpaceB).reverse.dropWhile isPySpaceB).reverse

/-- Python str.strip on the modelled whitespace class. -/
def pyStrip (s : String) : String := String.mk (stripChars s.toList)

/-- The Python slice l[-n:] for nonempty slices: the last n elements (the
whole list when n exceeds the length). -/
def lastN (n : Nat) (l : List Char) : List Char := l.drop (l.length - n)

/-! ## ocr_engine.perform_ocr: the streaming loop and hallucination detector -/

/-- One decoded line of the streamed generate response: the text of its
response field and its done flag.  Empty lines and lines failing JSON
decoding are skipped by the source before this point and are not modelled;
the wall-clock and per-chunk timeouts are outside the model. -/
structure Chunk where
  token : String
  done : Bool
deriving DecidableEq, Repr

/-- Buffer update of perform_ocr: append the token, then cut to the last 200
characters when the buffer exceeds 200. -/
def stepBuffer (buf : List Char) (tok : List Char) : List Char :=
  if 200 < (buf ++ tok).length then lastN 200 (buf ++ tok) else buf ++ tok

/-- Detection 1 of perform_ocr: while the buffer holds more than 50
characters, for each pattern length 1..10 test whether the buffer ends with
its last characters of that length repeated 15 times. -/
def hallucCheck (buf : List Char) : Bool :=
  decide (50 < buf.length) &&
    (List.range 10).any fun i =>
      (List.flatten (List.replicate 15 (lastN (i + 1) buf))).isSuffixOf buf

/-- The streaming read loop of perform_ocr: accumulate tokens, update the
trailing buffer, stop early on detection, stop on the done flag.  Returns
the accumulated tokens and the detection flag. -/
def runStream : List Char → List String → List Chunk → List String × Bool
  | _, acc, [] => (acc, false)
  | buf, acc, c :: rest =>
    if hallucCheck (stepBuffer buf c.token.data) then (acc ++ [c.token], true)
    else if c.done then (acc ++ [c.token], false)
    else runStream (stepBuffer buf c.token.data) (acc ++ [c.token]) rest

inductive OcrError
  | hallucination
deriving DecidableEq, Repr

/-- perform_ocr on a chunk stream: raises HallucinationError when the online
detector fires, otherwise returns the joined, stripped text. -/
def perform_ocr (chunks : List Chunk) : Except OcrError String :=
  if (runStream [] [] chunks).2 then Except.error OcrError.hallucination
  else Except.ok (pyStrip (String.join (runStream [] [] chunks).1))

/-- Modelled from the spec: the trigger condition exactly as the claim words
it, with no buffer-size guard: for some pattern length k in 1..10 the buffer
ends with its last k characters repeated 15 times. -/
def specTriggerB (buf : List Char) : Bool :=
  (List.range' 1 10).any fun k =>
    (List.flatten (List.replicate 15 (lastN k buf))).isSuffixOf buf

/-- Modelled from the spec (amended): the detector run over the stream,
firing exactly when the updated buffer holds more than 50 characters and the
repeat condition of the claim holds. -/
def specDetectRun : List Char → List Chunk → Bool
  | _, [] => false
  | buf, c :: rest =>
    if decide (50 < (stepBuffer buf c.token.data).length) &&
        specTriggerB (stepBuffer buf c.token.data) then true
    else if c.done then false
    else specDetectRun (stepBuffer buf c.token.data) rest

/-- Total number of characters received over a stream. -/
def totalLen (chunks : List Chunk) : Nat :=
  (chunks.map fun c => c.token.length).sum

/-! ## ocr_engine.parse_response: the region-announcement matcher

The source compiles the pattern

  ref tag, greedy whitespace, lazy type group (any characters but a
  newline), greedy whitespace, closing ref tag, greedy whitespace, det tag,
  greedy whitespace, double opening bracket, lazy coords group (any
  characters but a newline), double closing bracket, greedy whitespace,
  closing det tag

and walks it with finditer.  Every literal after a greedy whitespace run
starts with a non-whitespace character, so the run is committed: no shorter
run can place the literal elsewhere, and a shorter initial run only moves
whitespace characters into the lazy group without enabling new matches.
The two lazy groups grow one non-newline character at a time, preferring at
each point the shortest continuation, and on failure of the whole
continuation they grow further - which also covers a later closing tag
occurrence, as the backtracking engine does. -/

def refTag : List Char := "<|ref|>".toList
def closeRefTag : List Char := "<|/ref|>".toList
def detTag : List Char := "<|det|>".toList
def closeDetTag : List Char := "<|/det|>".toList
def dbOpen : List Char := "[[".toList
def dbClose : List Char := "]]".toList

def dropWs (l : List Char) : List Char := l.dropWhile isPySpaceB

/-- Consume a literal, returning the remainder. -/
def lit (pat l : List Char) : Option (List Char) :=
  if pat.isPrefixOf l then some (l.drop pat.length) else none

/-- Continuation closing the coords group: the double closing bracket, greedy
whitespace, and the closing det tag. -/
def closeCoords (l : List Char) : Option (List Char) :=
  match lit dbClose l with
  | none => none
  | some l2 => lit closeDetTag (dropWs l2)

/-- The lazy coords group: grow one non-newline character at a time, at each
point preferring to close the group. -/
def coordsScan : List Char → List Char → Option (List Char × List Char)
  | _, [] => none
  | acc, c :: rest =>
    match closeCoords (c :: rest) with
    | some r => some (acc, r)
    | none => if c = '\n' then none else coordsScan (acc ++ [c]) rest

/-- Continuation after the lazy type group: greedy whitespace, closing ref
tag, greedy whitespace, det tag, greedy whitespace, the double opening
bracket, then the coords group.  Returns the coords group and the suffix
after the whole match. -/
def afterType (l : List Char) : Option (List Char × List Char) :=
  match lit closeRefTag (dropWs l) with
  | none => none
  | some l2 =>
    match lit detTag (dropWs l2) with
    | none => none
    | some l3 =>
      match lit dbOpen (dropWs l3) with
      | none => none
      | some l4 => coordsScan [] l4

/-- The lazy type group: grow one non-newline character at a time, at each
point preferring the continuation. -/
def typeScan : List Char → List Char → Option (List Char × List Char × List Char)
  | acc, [] =>
    match afterType [] with
    | some (coords, endSuf) => some (acc, coords, endSuf)
    | none => none
  | acc, c :: rest =>
    match afterType (c :: rest) with
    | some (coords, endSuf) => some (acc, coords, endSuf)
    | none => if c = '\n' then none else typeScan (acc ++ [c]) rest

/-- One match of the region-announcement pattern: the captured type group,
the captured coords group, and the suffixes of the input at the start and at
the end of the whole match (standing for match.start and match.end). -/
structure RawMatch where
  rtype : List Char
  coords : List Char
  startSuffix : List Char
  endSuffix : List Char
deriving DecidableEq, Repr

/-- Attempt the pattern at the head of l. -/
def tryMatch (l : List Char) : Option RawMatch :=
  match lit refTag l with
  | none => none
  | some l1 =>
    match typeScan [] (dropWs l1) with
    | none => none
    | some (ty, coords, endSuf) => some ⟨ty, coords, l, endSuf⟩

/-- finditer: leftmost, non-overlapping; on failure advance one character.
The fuel bounds the number of steps: each step either drops one character or
consumes a whole non-empty match, so length + 1 always suffices. -/
def findAllAux : Nat → List Char → List RawMatch
  | 0, _ => []
  | _ + 1, [] => []
  | n + 1, c :: rest =>
    match tryMatch (c :: rest) with
    | some m => m :: findAllAux n m.endSuffix
    | none => findAllAux n rest

def findAll (l : List Char) : List RawMatch := findAllAux (l.length + 1) l

/-! ## ocr_engine.parse_response: coordinate parsing and region records -/

/-- Python str.split on a comma, keeping empty pieces. -/
def splitComma : List Char → List (List Char)
  | [] => [[]]
  | c :: rest =>
    if c = ',' then [] :: splitComma rest
    else
      match splitComma rest with
      | [] => [[c]]
      | h :: t => (c :: h) :: t

def digitsToNat (ds : List Char) : Nat :=
  ds.foldl (fun a c => 10 * a + (c.toNat - 48)) 0

def takeDigits (l : List Char) : List Char × List Char :=
  (l.takeWhile Char.isDigit, l.dropWhile Char.isDigit)

/-- The syntactic components of a Python float literal: sign, integer part,
fractional digits with their count, exponent sign and value.  Splitting the
character-level parse from the rational value keeps the former fully
computable by the kernel. -/
structure FloatParts where
  neg : Bool
  ipart : Nat
  fpart : Nat
  flen : Nat
  eneg : Bool
  expVal : Nat
deriving DecidableEq, Repr

/-- Python float() applied to a piece of the coords group (stripped first,
as in the source): sign, digits, an optional decimal point and an optional
exponent.  The inf/nan words and underscore digit grouping of float() are
outside the model. -/
def parseFloatParts (l0 : List Char) : Option FloatParts :=
  let l := stripChars l0
  let sgn : Bool × List Char :=
    match l with
    | '+' :: r => (false, r)
    | '-' :: r => (true, r)
    | _ => (false, l)
  let ip := takeDigits sgn.2
  let fr : List Char × List Char :=
    match ip.2 with
    | '.' :: r => takeDigits r
    | _ => ([], ip.2)
  if ip.1.isEmpty && fr.1.isEmpty then none
  else
    match fr.2 with
    | [] => some ⟨sgn.1, digitsToNat ip.1, digitsToNat fr.1, fr.1.length, false, 0⟩
    | e :: r =>
      if e = 'e' || e = 'E' then
        let es : Bool × List Char :=
          match r with
          | '+' :: rr => (false, rr)
          | '-' :: rr => (true, rr)
          | _ => (false, r)
        let ed := takeDigits es.2
        if ed.1.isEmpty || !ed.2.isEmpty then none
        else some ⟨sgn.1, digitsToNat ip.1, digitsToNat fr.1, fr.1.length, es.1, digitsToNat ed.1⟩
      else none

/-- The exact rational value of a parsed float literal.  With no exponent the
stored exponent is zero and the factor is one, the value the source
computes. -/
def partsToQ (p : FloatParts) : ℚ :=
  (if p.neg then -1 else 1) * ((p.ipart : ℚ) + (p.fpart : ℚ) / (10 : ℚ) ^ p.flen) *
    (if p.eneg then ((10 : ℚ) ^ p.expVal)⁻¹ else (10 : ℚ) ^ p.expVal)

def parseFloatQ (l0 : List Char) : Option ℚ := (parseFloatParts l0).map partsToQ

/-- All pieces of the comma-split group parsed in order; one failure fails
the whole list (the float() exception of the comprehension). -/
def traverseFloats : List (List Char) → Option (List ℚ)
  | [] => some []
  | p :: rest =>
    match parseFloatQ p, traverseFloats rest with
    | some q, some qs => some (q :: qs)
    | _, _ => none

/-- The list comprehension over the comma-split coords group: all pieces must
parse as floats (an exception skips the region, modelled as none). -/
def parseCoords (l : List Char) : Option (List ℚ) :=
  traverseFloats (splitComma l)

/-- One parsed region: the source builds a dict with exactly two keys, bbox
(the four parsed numbers each divided by 1000, in xmin, ymin, xmax, ymax
order) and text.  No type key is emitted. -/
structure Region where
  xmin : ℚ
  ymin : ℚ
  xmax : ℚ
  ymax : ℚ
  text : String
deriving DecidableEq, Repr

/-- Content span of a match: from its end to the start of the next match, or
to the end of the input for the last match. -/
def contentOf (m : RawMatch) (next : Option RawMatch) : List Char :=
  match next with
  | none => m.endSuffix
  | some m2 => m.endSuffix.take (m.endSuffix.length - m2.startSuffix.length)

/-- The loop body of parse_response for one match: parse the coords group;
anything but exactly four numbers skips the match; otherwise normalize by
1000 and strip the content. -/
def mkRegion? (m : RawMatch) (content : List Char) : Option Region :=
  match parseCoords m.coords with
  | some [a, b, c, d] =>
    some ⟨a / 1000, b / 1000, c / 1000, d / 1000, String.mk (stripChars content)⟩
  | _ => none

/-- The enumerate loop of parse_response over the match list. -/
def buildResults : List RawMatch → List Region
  | [] => []
  | m :: rest =>
    match mkRegion? m (contentOf m rest.head?) with
    | some r => r :: buildResults rest
    | none => buildResults rest

/-- Each match paired with its content span. -/
def annot : List RawMatch → List (RawMatch × List Char)
  | [] => []
  | m :: rest => (m, contentOf m rest.head?) :: annot rest

/-- parse_response on a string argument. -/
def parseResponseStr (s : String) : List Region := buildResults (findAll s.toList)

/-- The dynamically typed argument of parse_response: a string, or an already
parsed list. -/
inductive ParseInput
  | str (s : String)
  | lst (l : List Region)

/-- parse_response: a list argument is returned unchanged; a string argument
is scanned for region announcements. -/
def parse_response : ParseInput → List Region
  | ParseInput.str s => parseResponseStr s
  | ParseInput.lst l => l

/-- The bbox invariant claimed by the spec: normalized coordinates in the
unit interval, mins below maxes. -/
def bboxInv (r : Region) : Prop :=
  0 ≤ r.xmin ∧ r.xmin ≤ 1 ∧ 0 ≤ r.ymin ∧ r.ymin ≤ 1 ∧
  0 ≤ r.xmax ∧ r.xmax ≤ 1 ∧ 0 ≤ r.ymax ∧ r.ymax ≤ 1 ∧
  r.xmin ≤ r.xmax ∧ r.ymin ≤ r.ymax

instance : DecidablePred bboxInv := fun r => by unfold bboxInv; infer_instance

/-- Raw-coordinate side condition: a parsed quadruple lies on the 0..1000
scale with mins below maxes (vacuous for anything but a quadruple, which
never produces a region). -/
def optCoordsOK : Option (List ℚ) → Bool
  | some [a, b, c, d] =>
    decide (0 ≤ a ∧ a ≤ 1000 ∧ 0 ≤ b ∧ b ≤ 1000 ∧ 0 ≤ c ∧ c ≤ 1000 ∧
      0 ≤ d ∧ d ≤ 1000 ∧ a ≤ c ∧ b ≤ d)
  | _ => true

/-- Two matches agreeing on everything the parse loop reads: the coords group
and the two span suffixes; the captured type group may differ. -/
def SameShape (a b : RawMatch) : Prop :=
  a.coords = b.coords ∧ a.startSuffix = b.startSuffix ∧ a.endSuffix = b.endSuffix

/-! ## pdf_processor.process_pdf: per-page escalation and layout choice -/

/-- Outcome of one perform_ocr call as seen by process_pdf: a returned text,
a HallucinationError, or any other exception. -/
inductive OcrResult
  | ok (text : String)
  | hallucinationErr
  | err (msg : String)
deriving DecidableEq, Repr

def isOk : OcrResult → Bool
  | OcrResult.ok _ => true
  | _ => false

/-- The default prompt of perform_ocr, used by the grounded attempt. -/
def groundingPrompt : String := "<|grounding|>Extract text with bounding boxes."

/-- The fallback prompt passed explicitly by process_pdf. -/
def freePrompt : String := "Free OCR."

/-- Observable step of the per-page OCR orchestration. -/
inductive PageEvent
  | attempt (prompt : String) (timeout : Nat)
  | cooldown (seconds : Nat)
deriving DecidableEq, Repr

def isAttempt : PageEvent → Bool
  | PageEvent.attempt _ _ => true
  | PageEvent.cooldown _ => false

/-- Step 2 of process_pdf for one page: a grounded attempt at timeout 90; on
a HallucinationError or any other error, a 3 second cooldown followed by one
fallback attempt with the free prompt at timeout 120; a fallback failure of
any kind leaves the initial state (no regions, empty raw text) and the page
goes on.  The first component is the pair of ocr_data and ocr_text_raw, the
second the ordered trace of attempts and cooldowns. -/
def pageOcr (grounded fallback : OcrResult) :
    (List Region × String) × List PageEvent :=
  match grounded with
  | OcrResult.ok t => ((parseResponseStr t, t), [PageEvent.attempt groundingPrompt 90])
  | _ =>
    let evs := [PageEvent.attempt groundingPrompt 90, PageEvent.cooldown 3,
      PageEvent.attempt freePrompt 120]
    match fallback with
    | OcrResult.ok t => ((parseResponseStr t, t), evs)
    | _ => (([], ""), evs)

inductive LayoutChoice
  | degradedBlocks (raw : String)
  | regionLayout (data : List Region)
deriving DecidableEq, Repr

/-- Step 3 of process_pdf: the coordinate-less top-margin block layout runs
exactly when ocr_data is empty and the stripped raw text is non-empty
(Python truthiness of the two values); otherwise the per-region layout runs,
over possibly zero regions. -/
def chooseLayout (data : List Region) (raw : String) : LayoutChoice :=
  if data.isEmpty && !(pyStrip raw == "") then LayoutChoice.degradedBlocks raw
  else LayoutChoice.regionLayout data

/-! ## pdf_processor.process_pdf: the adaptive font-size search -/

/-- The height acceptance test of the shrinking loop: line count times line
spacing (1.2 times the size) fits the box height up to two tenths of the
current font size. -/
def codeAccept (fs bh : ℚ) (numLines : Nat) : Bool :=
  decide ((numLines : ℚ) * (fs * 1.2) ≤ bh + fs * 0.2)

/-- Modelled from the spec: the acceptance test as the claim words it, a
tolerance of twenty percent of the box height. -/
def specAccept (fs bh : ℚ) (numLines : Nat) : Bool :=
  decide ((numLines : ℚ) * (fs * 1.2) ≤ bh * 1.2)

/-- The iterative shrinking loop: at most the given number of rounds (five
in the source); accept on the height test, otherwise shrink by 0.85,
clamping to the floor 4 and stopping if the size would drop below it.  The
simpleSplit word wrap of reportlab enters as the oracle wrap giving the
wrapped line count at a size.  Returns the final size and the number of
shrinks performed. -/
def searchLoop (wrap : ℚ → Nat) (bh : ℚ) : Nat → ℚ → ℚ × Nat
  | 0, fs => (fs, 0)
  | n + 1, fs =>
    if codeAccept fs bh (wrap fs) then (fs, 0)
    else if fs * 0.85 < 4 then (4, 1)
    else
      ((searchLoop wrap bh n (fs * 0.85)).1, (searchLoop wrap bh n (fs * 0.85)).2 + 1)

/-- The heuristic seed: the square root of the target character area (passed
in as rawSqrt, the only irrational step), clamped between 5 and the box
height - which lands below 5 whenever the box height does. -/
def startFontSize (rawSqrt bh : ℚ) : ℚ := min (max rawSqrt 5) bh

/-- The font-size search as run by the source: five rounds of the shrinking
loop. -/
def fontSearch (wrap : ℚ → Nat) (bh s0 : ℚ) : ℚ × Nat := searchLoop wrap bh 5 s0

/-! ## Concrete inputs used by counterexamples and witnesses -/

def c6Input : String := "<|ref|>t<|/ref|><|det|>[[2000,0,100,50]]<|/det|>hi"

def c6GoodInput : String := "<|ref|>x<|/ref|><|det|>[[1,2,3,4]]<|/det|>hey"

def c7InputA : String := "<|ref|>title<|/ref|><|det|>[[1,2,3,4]]<|/det|>body"

def c7InputB : String := "<|ref|>other<|/ref|><|det|>[[1,2,3,4]]<|/det|>body"

def c7MatchA : RawMatch :=
  ⟨"title".toList, "1,2,3,4".toList, c7InputA.toList, "body".toList⟩

def c7MatchB : RawMatch :=
  ⟨"other".toList, "1,2,3,4".toList, c7InputA.toList, "body".toList⟩

def c8Plain : String := "plain text with no markup"

/-! ## Theorems: the streaming hallucination detector (claims C1 and C10) -/

theorem hallucCheck_eq_spec (buf : List Char) :
    hallucCheck buf = (decide (50 < buf.length) && specTriggerB buf) := by
  rfl

theorem runStream_detect_eq :
    ∀ (chunks : List Chunk) (buf : List Char) (acc : List String),
      (runStream buf acc chunks).2 = specDetectRun buf chunks
  | [], _, _ => rfl
  | c :: rest, buf, acc => by
    simp only [runStream, specDetectRun, ← hallucCheck_eq_spec]
    by_cases h : hallucCheck (stepBuffer buf c.token.data) = true
    · simp [h]
    · by_cases hd : c.done = true
      · simp [h, hd]
      · simp [h, hd, runStream_detect_eq rest]

theorem stepBuffer_length_le (buf tok : List Char) :
    (stepBuffer buf tok).length ≤ buf.length + tok.length := by
  unfold stepBuffer lastN
  split
  · simp only [List.length_drop, List.length_append]
    omega
  · simp [List.length_append]

theorem runStream_small :
    ∀ (chunks : List Chunk) (buf : List Char) (acc : List String),
      buf.length + totalLen chunks ≤ 50 → (runStream buf acc chunks).2 = false
  | [], _, _, _ => rfl
  | c :: rest, buf, acc, h => by
    have hb : (stepBuffer buf c.token.data).length ≤ buf.length + c.token.length := by
      have := stepBuffer_length_le buf c.token.data
      simpa using this
    have htot : totalLen (c :: rest) = c.token.length + totalLen rest := by
      simp [totalLen]
    have hcheck : hallucCheck (stepBuffer buf c.token.data) = false := by
      rw [hallucCheck_eq_spec]
      have hn : decide (50 < (stepBuffer buf c.token.data).length) = false :=
        decide_eq_false (by omega)
      rw [hn, Bool.false_and]
    simp only [runStream, hcheck]
    by_cases hd : c.done = true
    · simp [hcheck, hd]
    · simp only [hcheck, hd, Bool.false_eq_true, if_false]
      exact runStream_small rest (stepBuffer buf c.token.data) (acc ++ [c.token]) (by omega)

/-- Claim C1, counterexample: a stream whose trailing buffer ends in its
last character repeated 15 times right after a chunk, yet perform_ocr
returns the text instead of raising, because the buffer never holds more
than 50 characters. -/
theorem C1_counterexample :
    specTriggerB (stepBuffer [] ("aaaaaaaaaaaaaaa".toList)) = true ∧
    perform_ocr [⟨"aaaaaaaaaaaaaaa", true⟩] = Except.ok "aaaaaaaaaaaaaaa" := by
  exact ⟨by decide, by rfl⟩

/-- Claim C1 (amended): perform_ocr raises HallucinationError exactly when,
after some received chunk, the trailing buffer (cut to its last 200
characters) holds more than 50 characters and ends with its last k
characters repeated 15 times for some k in 1..10; the detection aborts the
stream at that chunk. -/
theorem C1_detection_iff (chunks : List Chunk) :
    perform_ocr chunks = Except.error OcrError.hallucination ↔
      specDetectRun [] chunks = true := by
  have hd := runStream_detect_eq chunks [] []
  unfold perform_ocr
  rw [hd]
  cases h : specDetectRun [] chunks
  · simp [h]
  · simp [h]

/-- Claim C1, witness: a stream of sixty identical characters in one chunk is
aborted with HallucinationError. -/
theorem C1_detection_iff_witness :
    perform_ocr [⟨String.mk (List.replicate 60 'a'), false⟩] =
      Except.error OcrError.hallucination :=
  (C1_detection_iff [⟨String.mk (List.replicate 60 'a'), false⟩]).mpr (by decide)

/-- Claim C10: the detector is gated on a buffer of strictly more than 50
characters, so a stream whose total received text holds at most 50
characters never raises HallucinationError, however repetitive. -/
theorem C10_small_stream_no_hallucination (chunks : List Chunk)
    (h : totalLen chunks ≤ 50) :
    perform_ocr chunks ≠ Except.error OcrError.hallucination := by
  unfold perform_ocr
  have hz : (runStream [] [] chunks).2 = false :=
    runStream_small chunks [] [] (by simpa using h)
  rw [hz]
  simp

/-- Claim C10, witness: a five-character stream is returned, not aborted. -/
theorem C10_small_stream_witness :
    totalLen [⟨"hello", false⟩] ≤ 50 ∧
    perform_ocr [⟨"hello", false⟩] ≠ Except.error OcrError.hallucination :=
  ⟨by decide, C10_small_stream_no_hallucination [⟨"hello", false⟩] (by decide)⟩

/-! ## Theorems: parse_response (claims C6, C7, C8, C9) -/

theorem buildResults_eq_filterMap :
    ∀ ms : List RawMatch,
      buildResults ms = (annot ms).filterMap fun p => mkRegion? p.1 p.2
  | [] => rfl
  | m :: rest => by
    simp only [buildResults, annot, List.filterMap_cons]
    cases h : mkRegion? m (contentOf m rest.head?)
    · simpa [h] using buildResults_eq_filterMap rest
    · simpa [h] using buildResults_eq_filterMap rest

theorem mkRegion?_isSome (m : RawMatch) (content : List Char) :
    (mkRegion? m content).isSome = true ↔
      ∃ l, parseCoords m.coords = some l ∧ l.length = 4 := by
  unfold mkRegion?
  cases h : parseCoords m.coords with
  | none => simp [h]
  | some l =>
    rcases l with _ | ⟨a, l⟩
    · simp [h]
    rcases l with _ | ⟨b, l⟩
    · simp [h]
    rcases l with _ | ⟨c0, l⟩
    · simp [h]
    rcases l with _ | ⟨d, l⟩
    · simp [h]
    rcases l with _ | ⟨e, l⟩
    · simp [h]
    · simp [h]

/-- Claim C8: parse_response is total: the result is exactly the in-order
filter of the match list in which a match contributes a Region precisely
when its coordinate group parses to exactly four numbers (a malformed group
skips only its own match), and an input with no announcements at all gives
the empty list. -/
theorem C8_parse (s : String) :
    parseResponseStr s =
      ((annot (findAll s.toList)).filterMap fun p => mkRegion? p.1 p.2) ∧
    (findAll s.toList = [] → parseResponseStr s = []) ∧
    ∀ p ∈ annot (findAll s.toList),
      ((mkRegion? p.1 p.2).isSome = true ↔
        ∃ l, parseCoords p.1.coords = some l ∧ l.length = 4) := by
  refine ⟨?_, ?_, ?_⟩
  · simpa [parseResponseStr] using buildResults_eq_filterMap (findAll s.toList)
  · intro h
    unfold parseResponseStr
    rw [h]
    rfl
  · intro p _
    exact mkRegion?_isSome p.1 p.2

/-- Claim C8, witness: markup-free input has no matches and parses to the
empty list. -/
theorem C8_parse_witness :
    findAll c8Plain.toList = [] ∧ parseResponseStr c8Plain = [] :=
  ⟨by decide, (C8_parse c8Plain).2.1 (by decide)⟩

theorem mkRegion_inv (m : RawMatch) (content : List Char) (r : Region)
    (hok : optCoordsOK (parseCoords m.coords) = true)
    (hr : mkRegion? m content = some r) : bboxInv r := by
  unfold mkRegion? at hr
  cases hc : parseCoords m.coords with
  | none => rw [hc] at hr; simp at hr
  | some l =>
    rw [hc] at hr
    rcases l with _ | ⟨a, l⟩
    · simp at hr
    rcases l with _ | ⟨b, l⟩
    · simp at hr
    rcases l with _ | ⟨c0, l⟩
    · simp at hr
    rcases l with _ | ⟨d, l⟩
    · simp at hr
    rcases l with _ | ⟨e, l⟩
    · rw [hc] at hok
      unfold optCoordsOK at hok
      obtain ⟨h1, h2, h3, h4, h5, h6, h7, h8, h9, h10⟩ := of_decide_eq_true hok
      have hr2 := Option.some.inj hr
      subst hr2
      refine ⟨by positivity, by linarith, by positivity, by linarith,
        by positivity, by linarith, by positivity, by linarith,
        by linarith, by linarith⟩
    · simp at hr

theorem buildResults_bboxInv :
    ∀ ms : List RawMatch,
      (∀ m ∈ ms, optCoordsOK (parseCoords m.coords) = true) →
      ∀ r ∈ buildResults ms, bboxInv r
  | [], _, r, hr => by simp [buildResults] at hr
  | m :: rest, h, r, hr => by
    have hrest : ∀ m2 ∈ rest, optCoordsOK (parseCoords m2.coords) = true :=
      fun m2 hm2 => h m2 (List.mem_cons_of_mem m hm2)
    simp only [buildResults] at hr
    cases hmk : mkRegion? m (contentOf m rest.head?) with
    | none =>
      rw [hmk] at hr
      exact buildResults_bboxInv rest hrest r hr
    | some r0 =>
      rw [hmk] at hr
      rcases List.mem_cons.mp hr with h1 | h2
      · subst h1
        exact mkRegion_inv m (contentOf m rest.head?) r
          (h m (List.mem_cons_self m rest)) hmk
      · exact buildResults_bboxInv rest hrest r h2

theorem partsToQ_nat (n : Nat) :
    partsToQ ⟨false, n, 0, 0, false, 0⟩ = (n : ℚ) := by
  simp [partsToQ]

theorem parseFloatQ_nat {l : List Char} {n : Nat}
    (h : parseFloatParts l = some ⟨false, n, 0, 0, false, 0⟩) :
    parseFloatQ l = some (n : ℚ) := by
  simp [parseFloatQ, h, partsToQ_nat]

theorem parseCoords_1234 :
    parseCoords "1,2,3,4".toList = some [1, 2, 3, 4] := by
  have hs : splitComma "1,2,3,4".toList =
      ["1".toList, "2".toList, "3".toList, "4".toList] := by decide
  have h1 : parseFloatQ "1".toList = some ((1 : Nat) : ℚ) := parseFloatQ_nat (by decide)
  have h2 : parseFloatQ "2".toList = some ((2 : Nat) : ℚ) := parseFloatQ_nat (by decide)
  have h3 : parseFloatQ "3".toList = some ((3 : Nat) : ℚ) := parseFloatQ_nat (by decide)
  have h4 : parseFloatQ "4".toList = some ((4 : Nat) : ℚ) := parseFloatQ_nat (by decide)
  unfold parseCoords
  rw [hs]
  simp only [traverseFloats, h1, h2, h3, h4]
  norm_num

theorem parseCoords_c6 :
    parseCoords "2000,0,100,50".toList = some [2000, 0, 100, 50] := by
  have hs : splitComma "2000,0,100,50".toList =
      ["2000".toList, "0".toList, "100".toList, "50".toList] := by decide
  have h1 : parseFloatQ "2000".toList = some ((2000 : Nat) : ℚ) := parseFloatQ_nat (by decide)
  have h2 : parseFloatQ "0".toList = some ((0 : Nat) : ℚ) := parseFloatQ_nat (by decide)
  have h3 : parseFloatQ "100".toList = some ((100 : Nat) : ℚ) := parseFloatQ_nat (by decide)
  have h4 : parseFloatQ "50".toList = some ((50 : Nat) : ℚ) := parseFloatQ_nat (by decide)
  unfold parseCoords
  rw [hs]
  simp only [traverseFloats, h1, h2, h3, h4]
  norm_num

theorem parseResponse_single (s : String) (m : RawMatch) (a b c d : ℚ)
    (hf : findAll s.toList = [m])
    (hc : parseCoords m.coords = some [a, b, c, d]) :
    parseResponseStr s =
      [⟨a/1000, b/1000, c/1000, d/1000, String.mk (stripChars m.endSuffix)⟩] := by
  unfold parseResponseStr
  rw [hf]
  simp only [buildResults, contentOf, List.head?, mkRegion?, hc]

/-- Claim C6, counterexample: parse_response applies no validation to the
parsed coordinates, so the raw quadruple 2000, 0, 100, 50 yields a Region
whose xmin is 2 (outside the unit interval) and exceeds its xmax. -/
theorem C6_counterexample :
    parseResponseStr c6Input =
      [⟨2000/1000, 0/1000, 100/1000, 50/1000, "hi"⟩] ∧
    ¬ bboxInv ⟨2000/1000, 0/1000, 100/1000, 50/1000, "hi"⟩ := by
  constructor
  · have hf : findAll c6Input.toList =
        [⟨"t".toList, "2000,0,100,50".toList, c6Input.toList, "hi".toList⟩] := by decide
    have hs : String.mk (stripChars "hi".toList) = "hi" := by decide
    have h := parseResponse_single c6Input _ 2000 0 100 50 hf parseCoords_c6
    rw [h, hs]
  · intro h
    have h2 := h.2.1
    norm_num at h2

/-- Claim C6 (amended): the parser only divides each parsed coordinate by
1000; whenever every coordinate quadruple parsed from the input lies on the
0..1000 scale with mins below maxes, every produced Region satisfies the
bbox invariant: coordinates in the unit interval, xmin below xmax, ymin
below ymax. -/
theorem C6_bbox_inv (s : String)
    (h : ∀ m ∈ findAll s.toList, optCoordsOK (parseCoords m.coords) = true) :
    ∀ r ∈ parseResponseStr s, bboxInv r := by
  unfold parseResponseStr
  exact buildResults_bboxInv (findAll s.toList) h

/-- Claim C6, witness: a well-ranged input produces a Region satisfying the
invariant. -/
theorem C6_bbox_inv_witness :
    bboxInv (⟨1/1000, 2/1000, 3/1000, 4/1000, "hey"⟩ : Region) := by
  have hf : findAll c6GoodInput.toList =
      [⟨"x".toList, "1,2,3,4".toList, c6GoodInput.toList, "hey".toList⟩] := by decide
  have hhyp : ∀ m ∈ findAll c6GoodInput.toList,
      optCoordsOK (parseCoords m.coords) = true := by
    rw [hf]
    intro m hm
    rw [List.mem_singleton.mp hm]
    rw [show parseCoords "1,2,3,4".toList = some [1, 2, 3, 4] from parseCoords_1234]
    unfold optCoordsOK
    exact decide_eq_true (by norm_num)
  have hs : String.mk (stripChars "hey".toList) = "hey" := by decide
  have hp := parseResponse_single c6GoodInput _ 1 2 3 4 hf parseCoords_1234
  rw [hs] at hp
  exact C6_bbox_inv c6GoodInput hhyp _ (by rw [hp]; exact List.mem_singleton.mpr rfl)

/-- Claim C7, counterexample: two inputs differing only in the text of the
type marker produce equal (non-empty) parse results even though the matcher
captured different type groups, so the records carry no type field. -/
theorem C7_counterexample :
    parseResponseStr c7InputA = parseResponseStr c7InputB ∧
    (findAll c7InputA.toList).map RawMatch.rtype ≠
      (findAll c7InputB.toList).map RawMatch.rtype ∧
    parseResponseStr c7InputA ≠ [] := by
  have hfA : findAll c7InputA.toList =
      [⟨"title".toList, "1,2,3,4".toList, c7InputA.toList, "body".toList⟩] := by decide
  have hfB : findAll c7InputB.toList =
      [⟨"other".toList, "1,2,3,4".toList, c7InputB.toList, "body".toList⟩] := by decide
  have hA := parseResponse_single c7InputA _ 1 2 3 4 hfA parseCoords_1234
  have hB := parseResponse_single c7InputB _ 1 2 3 4 hfB parseCoords_1234
  refine ⟨?_, ?_, ?_⟩
  · rw [hA, hB]
  · rw [hfA, hfB]
    decide
  · rw [hA]
    simp

/-- Claim C7 (amended): the region records carry only the bbox and the text;
the captured type group is discarded, so the parse result depends only on
the coords groups and the match spans. -/
theorem C7_type_ignored (l1 l2 : List RawMatch)
    (h : List.Forall₂ SameShape l1 l2) :
    buildResults l1 = buildResults l2 := by
  induction h with
  | nil => rfl
  | cons hab htail ih =>
    rename_i a b as bs
    obtain ⟨hc, hs, he⟩ := hab
    have hcont : contentOf a as.head? = contentOf b bs.head? := by
      cases htail with
      | nil => simp [contentOf, he]
      | cons hab2 htail2 =>
        rename_i a2 b2 as2 bs2
        obtain ⟨hc2, hs2, he2⟩ := hab2
        simp [contentOf, he, hs2]
    have hmk : mkRegion? a (contentOf b bs.head?) =
        mkRegion? b (contentOf b bs.head?) := by
      unfold mkRegion?
      rw [hc]
    simp only [buildResults]
    rw [hcont, hmk, ih]

/-- Claim C7, witness: changing only the captured type group of a match list
leaves the built regions unchanged. -/
theorem C7_type_ignored_witness :
    buildResults [c7MatchA] = buildResults [c7MatchB] :=
  C7_type_ignored [c7MatchA] [c7MatchB]
    (List.Forall₂.cons ⟨rfl, rfl, rfl⟩ List.Forall₂.nil)

/-- Claim C9: parse_response returns a list argument unchanged, acting as
the identity on list inputs. -/
theorem C9_list_input_identity (l : List Region) :
    parse_response (ParseInput.lst l) = l := rfl

/-! ## Theorems: per-page escalation and layout choice (claims C2 and C3) -/

/-- Claim C2: a failed grounded attempt (HallucinationError or any other
error) is followed by the fixed 3 second cooldown and exactly one fallback
attempt with the free prompt at a strictly longer timeout (120 over 90);
exactly two attempts are ever traced, never a third; and when the fallback
also fails (for any reason) the page state stays at no regions and empty raw
text, the model returning normally rather than raising. -/
theorem C2_escalation (g f : OcrResult) (hg : isOk g = false) :
    (pageOcr g f).2 = [PageEvent.attempt groundingPrompt 90, PageEvent.cooldown 3,
      PageEvent.attempt freePrompt 120] ∧
    (pageOcr g f).2.countP isAttempt = 2 ∧
    (90 : Nat) < 120 ∧
    (isOk f = false → (pageOcr g f).1 = ([], "")) := by
  have htrace : (pageOcr g f).2 = [PageEvent.attempt groundingPrompt 90,
      PageEvent.cooldown 3, PageEvent.attempt freePrompt 120] := by
    cases g with
    | ok t => simp [isOk] at hg
    | hallucinationErr => cases f <;> rfl
    | err m => cases f <;> rfl
  refine ⟨htrace, by rw [htrace]; rfl, by norm_num, ?_⟩
  intro hf
  cases g with
  | ok t => simp [isOk] at hg
  | hallucinationErr =>
    cases f with
    | ok t2 => simp [isOk] at hf
    | hallucinationErr => rfl
    | err m2 => rfl
  | err m =>
    cases f with
    | ok t2 => simp [isOk] at hf
    | hallucinationErr => rfl
    | err m2 => rfl

/-- Claim C2, witness: hallucination on the grounded pass and an error on
the fallback pass give the empty page state after exactly two attempts. -/
theorem C2_escalation_witness :
    isOk OcrResult.hallucinationErr = false ∧
    (pageOcr OcrResult.hallucinationErr (OcrResult.err "x")).1 = ([], "") ∧
    (pageOcr OcrResult.hallucinationErr (OcrResult.err "x")).2.countP isAttempt = 2 :=
  ⟨rfl, (C2_escalation OcrResult.hallucinationErr (OcrResult.err "x") rfl).2.2.2 rfl,
    (C2_escalation OcrResult.hallucinationErr (OcrResult.err "x") rfl).2.1⟩

/-- Claim C3, counterexample: a grounded attempt that succeeds with plain
text and no region markup parses to zero regions beside non-empty raw text,
and the page then takes the coordinate-less fallback block layout even
though the grounded attempt succeeded. -/
theorem C3_counterexample :
    (pageOcr (OcrResult.ok "hello") (OcrResult.err "boom")).1 = ([], "hello") ∧
    chooseLayout (pageOcr (OcrResult.ok "hello") (OcrResult.err "boom")).1.1
        (pageOcr (OcrResult.ok "hello") (OcrResult.err "boom")).1.2 =
      LayoutChoice.degradedBlocks "hello" := by
  have hp : parseResponseStr "hello" = [] := by decide
  constructor
  · show (parseResponseStr "hello", "hello") = ([], "hello")
    rw [hp]
  · show chooseLayout (parseResponseStr "hello") "hello" = _
    rw [hp]
    decide

/-- Claim C3 (amended): on a successful grounded attempt with text t the
page state is the parse of t beside t, and the coordinate-less block layout
is chosen exactly when that parse is empty while t strips to something
non-empty - the layout choice reads only the parse result and the raw text,
not which tier produced them. -/
theorem C3_layout_rule (g f : OcrResult) (t : String) (hg : g = OcrResult.ok t) :
    (pageOcr g f).1 = (parseResponseStr t, t) ∧
    (chooseLayout (pageOcr g f).1.1 (pageOcr g f).1.2 =
        LayoutChoice.degradedBlocks t ↔
      (parseResponseStr t = [] ∧ pyStrip t ≠ "")) := by
  subst hg
  refine ⟨rfl, ?_⟩
  show chooseLayout (parseResponseStr t) t = _ ↔ _
  unfold chooseLayout
  split
  · rename_i hcond
    rw [Bool.and_eq_true, List.isEmpty_iff, Bool.not_eq_true', beq_eq_false_iff_ne] at hcond
    exact iff_of_true rfl hcond
  · rename_i hcond
    refine iff_of_false (fun hh => LayoutChoice.noConfusion hh) (fun hh => hcond ?_)
    rw [Bool.and_eq_true, List.isEmpty_iff, Bool.not_eq_true', beq_eq_false_iff_ne]
    exact hh

/-- Claim C3, witness: the layout rule at the concrete successful grounded
text hello. -/
theorem C3_layout_rule_witness :
    (pageOcr (OcrResult.ok "hello") (OcrResult.err "z")).1 =
      (parseResponseStr "hello", "hello") ∧
    (chooseLayout (pageOcr (OcrResult.ok "hello") (OcrResult.err "z")).1.1
        (pageOcr (OcrResult.ok "hello") (OcrResult.err "z")).1.2 =
      LayoutChoice.degradedBlocks "hello" ↔
        (parseResponseStr "hello" = [] ∧ pyStrip "hello" ≠ "")) :=
  C3_layout_rule (OcrResult.ok "hello") (OcrResult.err "z") "hello" rfl

/-! ## Theorems: the adaptive font-size search (claims C4 and C5) -/

theorem searchLoop_count_le (wrap : ℚ → Nat) (bh : ℚ) :
    ∀ (n : Nat) (fs : ℚ), (searchLoop wrap bh n fs).2 ≤ n
  | 0, fs => Nat.le_refl 0
  | n + 1, fs => by
    simp only [searchLoop]
    split
    · simp
    · split
      · simp
      · exact Nat.succ_le_succ (searchLoop_count_le wrap bh n (fs * 0.85))

theorem searchLoop_reject (wrap : ℚ → Nat) (bh : ℚ) :
    ∀ (n : Nat) (fs : ℚ) (j : Nat), j < (searchLoop wrap bh n fs).2 →
      codeAccept (fs * 0.85 ^ j) bh (wrap (fs * 0.85 ^ j)) = false
  | 0, fs, j, hj => absurd hj (by simp [searchLoop])
  | n + 1, fs, j, hj => by
    by_cases hacc : codeAccept fs bh (wrap fs) = true
    · rw [searchLoop, if_pos hacc] at hj
      exact absurd hj (by simp)
    · by_cases hclamp : fs * 0.85 < 4
      · rw [searchLoop, if_neg hacc, if_pos hclamp] at hj
        have hj0 : j = 0 := by omega
        subst hj0
        rw [pow_zero, mul_one]
        exact Bool.eq_false_iff.mpr hacc
      · rw [searchLoop, if_neg hacc, if_neg hclamp] at hj
        cases j with
        | zero =>
          rw [pow_zero, mul_one]
          exact Bool.eq_false_iff.mpr hacc
        | succ j2 =>
          have hj2 : j2 < (searchLoop wrap bh n (fs * 0.85)).2 :=
            Nat.lt_of_succ_lt_succ hj
          have hrec := searchLoop_reject wrap bh n (fs * 0.85) j2 hj2
          have harg : fs * 0.85 ^ (j2 + 1) = fs * 0.85 * 0.85 ^ j2 := by ring
          rw [harg]
          exact hrec

theorem searchLoop_exit (wrap : ℚ → Nat) (bh : ℚ) :
    ∀ (n : Nat) (fs : ℚ),
      (codeAccept (searchLoop wrap bh n fs).1 bh (wrap (searchLoop wrap bh n fs).1) = true ∧
        (searchLoop wrap bh n fs).1 = fs * 0.85 ^ (searchLoop wrap bh n fs).2) ∨
      ((searchLoop wrap bh n fs).1 = 4 ∧ fs * 0.85 ^ (searchLoop wrap bh n fs).2 < 4) ∨
      ((searchLoop wrap bh n fs).2 = n ∧ (searchLoop wrap bh n fs).1 = fs * 0.85 ^ n)
  | 0, fs => Or.inr (Or.inr ⟨rfl, by rw [pow_zero, mul_one]; rfl⟩)
  | n + 1, fs => by
    by_cases hacc : codeAccept fs bh (wrap fs) = true
    · left
      rw [searchLoop, if_pos hacc]
      exact ⟨hacc, by rw [pow_zero, mul_one]⟩
    · by_cases hclamp : fs * 0.85 < 4
      · right; left
        rw [searchLoop, if_neg hacc, if_pos hclamp]
        exact ⟨rfl, by rw [pow_one]; exact hclamp⟩
      · have IH := searchLoop_exit wrap bh n (fs * 0.85)
        rw [searchLoop, if_neg hacc, if_neg hclamp]
        rcases IH with ⟨h1, h2⟩ | ⟨h1, h2⟩ | ⟨h1, h2⟩
        · left
          refine ⟨h1, ?_⟩
          rw [h2]
          ring
        · right; left
          refine ⟨h1, ?_⟩
          have harg : fs * 0.85 ^ ((searchLoop wrap bh n (fs * 0.85)).2 + 1) =
              fs * 0.85 * 0.85 ^ (searchLoop wrap bh n (fs * 0.85)).2 := by ring
          rw [harg]
          exact h2
        · right; right
          refine ⟨by rw [h1], ?_⟩
          rw [h2]
          ring

theorem searchLoop_min (wrap : ℚ → Nat) (bh : ℚ) :
    ∀ (n : Nat) (fs : ℚ),
      min 4 fs ≤ (searchLoop wrap bh n fs).1 ∧
      (4 ≤ fs → 4 ≤ (searchLoop wrap bh n fs).1)
  | 0, fs => ⟨min_le_right 4 fs, fun h => h⟩
  | n + 1, fs => by
    by_cases hacc : codeAccept fs bh (wrap fs) = true
    · rw [searchLoop, if_pos hacc]
      exact ⟨min_le_right 4 fs, fun h => h⟩
    · by_cases hclamp : fs * 0.85 < 4
      · rw [searchLoop, if_neg hacc, if_pos hclamp]
        exact ⟨min_le_left 4 fs, fun _ => le_refl 4⟩
      · have h4 : (4 : ℚ) ≤ fs * 0.85 := not_lt.mp hclamp
        have IH := searchLoop_min wrap bh n (fs * 0.85)
        have h4r : (4 : ℚ) ≤ (searchLoop wrap bh n (fs * 0.85)).1 := IH.2 h4
        rw [searchLoop, if_neg hacc, if_neg hclamp]
        exact ⟨le_trans (min_le_left 4 fs) h4r, fun _ => h4r⟩

/-- Claim C4, counterexample: at font size 5, box height 10 and two wrapped
lines the claimed rule (tolerance of twenty percent of the box height,
12 at most 12) accepts, but the code rule (tolerance of a fifth of the font
size, 12 at most 11) rejects and shrinks, so the search returns 4.25 after
one shrink instead of accepting 5. -/
theorem C4_counterexample :
    specAccept 5 10 2 = true ∧ codeAccept 5 10 2 = false ∧
    fontSearch (fun _ => 2) 10 5 = (17/4, 1) := by
  refine ⟨?_, ?_, ?_⟩
  · unfold specAccept
    exact decide_eq_true (by norm_num)
  · unfold codeAccept
    exact decide_eq_false (by norm_num)
  · have ha1 : codeAccept 5 10 ((fun _ : ℚ => 2) 5) = false := by
      unfold codeAccept
      exact decide_eq_false (by norm_num)
    have ha2 : codeAccept (5 * 0.85) 10 ((fun _ : ℚ => 2) (5 * 0.85)) = true := by
      unfold codeAccept
      exact decide_eq_true (by norm_num)
    unfold fontSearch
    rw [searchLoop, if_neg (by rw [ha1]; exact Bool.false_ne_true),
      if_neg (by norm_num)]
    rw [searchLoop, if_pos ha2]
    norm_num

/-- Claim C4 (amended): each round accepts exactly on the code test
numLines times fontSize times 1.2 at most boxHeight plus fontSize times 0.2
(a tolerance of twenty percent of the font size, not of the box height):
every size before a shrink failed that test, and the search ends either
accepting a size that passes it, or clamped at the floor 4, or with the
fifth shrink. -/
theorem C4_accept_rule (wrap : ℚ → Nat) (bh s0 : ℚ) :
    (fontSearch wrap bh s0).2 ≤ 5 ∧
    (∀ j < (fontSearch wrap bh s0).2,
      codeAccept (s0 * 0.85 ^ j) bh (wrap (s0 * 0.85 ^ j)) = false) ∧
    ((codeAccept (fontSearch wrap bh s0).1 bh (wrap (fontSearch wrap bh s0).1) = true ∧
        (fontSearch wrap bh s0).1 = s0 * 0.85 ^ (fontSearch wrap bh s0).2) ∨
      ((fontSearch wrap bh s0).1 = 4 ∧ s0 * 0.85 ^ (fontSearch wrap bh s0).2 < 4) ∨
      ((fontSearch wrap bh s0).2 = 5 ∧ (fontSearch wrap bh s0).1 = s0 * 0.85 ^ 5)) :=
  ⟨searchLoop_count_le wrap bh 5 s0,
   fun j hj => searchLoop_reject wrap bh 5 s0 j hj,
   searchLoop_exit wrap bh 5 s0⟩

/-- Claim C4, witness: the accept rule evaluated on a concrete search. -/
theorem C4_accept_rule_witness :
    (fontSearch (fun _ => 3) 9 6).2 ≤ 5 :=
  (C4_accept_rule (fun _ => 3) 9 6).1

/-- Claim C5, counterexample: a box of height 1 seeds the search at size 1
(the seed clamp lands at the box height when it is below 5), the first
height test accepts immediately (1.2 at most 1.2), and the search returns
font size 1, well below 4. -/
theorem C5_counterexample :
    startFontSize 5 1 = 1 ∧
    fontSearch (fun _ => 1) 1 (startFontSize 5 1) = (1, 0) ∧
    ¬ (4 ≤ (fontSearch (fun _ => 1) 1 (startFontSize 5 1)).1) := by
  have hseed : startFontSize 5 1 = 1 := by
    unfold startFontSize
    norm_num
  have hacc : codeAccept 1 1 ((fun _ : ℚ => 1) 1) = true := by
    unfold codeAccept
    exact decide_eq_true (by norm_num)
  have hrun : fontSearch (fun _ => 1) 1 (startFontSize 5 1) = (1, 0) := by
    rw [hseed]
    unfold fontSearch
    rw [searchLoop, if_pos hacc]
  refine ⟨hseed, hrun, ?_⟩
  rw [hrun]
  norm_num

/-- Claim C5 (amended): the search always stops within five shrinks; the
returned size never drops below the smaller of 4 and the seed, and is at
least 4 whenever the seed is - but a seed below 4, which the clamp
min (max rawSqrt 5) boxHeight produces exactly when the box height is below
4, can itself be accepted and returned. -/
theorem C5_font_floor (wrap : ℚ → Nat) (bh s0 rawSqrt : ℚ) :
    (fontSearch wrap bh s0).2 ≤ 5 ∧
    min 4 s0 ≤ (fontSearch wrap bh s0).1 ∧
    (4 ≤ s0 → 4 ≤ (fontSearch wrap bh s0).1) ∧
    (4 ≤ bh → 4 ≤ startFontSize rawSqrt bh) := by
  refine ⟨searchLoop_count_le wrap bh 5 s0, (searchLoop_min wrap bh 5 s0).1,
    (searchLoop_min wrap bh 5 s0).2, ?_⟩
  intro h
  unfold startFontSize
  have h5 : (5 : ℚ) ≤ max rawSqrt 5 := le_max_right rawSqrt 5
  rcases le_total (max rawSqrt 5) bh with hc | hc
  · rw [min_eq_left hc]
    linarith
  · rw [min_eq_right hc]
    exact h

/-- Claim C5, witness: the floor holds on a concrete search with seed 7 and
box height 100. -/
theorem C5_font_floor_witness :
    4 ≤ (fontSearch (fun _ => 3) 100 7).1 ∧ 4 ≤ startFontSize 9 100 :=
  ⟨(C5_font_floor (fun _ => 3) 100 7 9).2.2.1 (by norm_num),
   (C5_font_floor (fun _ => 3) 100 7 9).2.2.2 (by norm_num)⟩
